import Mathlib

/-
Verification of the benchmark execution engine of graphcore-cloud-tools
(examples_utils/benchmarks).  Each definition below is a shallow embedding
of a function of the Python source; file and line references point into
the repository sources.
-/

/-- Python substring test `needle in haystack`, used by the benchmark code
for log-marker detection and host matching.  True when the data of `pat`
occurs contiguously inside the data of `s`. -/
def strContains (s pat : String) : Bool := decide (pat.data <:+: s.data)

/-- Auxiliary for `pySplit`: accumulates the current piece (reversed) while
scanning the remaining characters. -/
def pySplitAux (sep : Char) : List Char → List Char → List String
  | acc, [] => [String.mk acc.reverse]
  | acc, c :: rest =>
    if c = sep then String.mk acc.reverse :: pySplitAux sep [] rest
    else pySplitAux sep (c :: acc) rest

/-- Python `str.split` with a one-character separator, as used by
`create_variants` (`vals = str(valstr).split(",")`): splits at every
separator occurrence, keeping empty pieces; the empty string gives one
empty piece, so the result is never the empty list. -/
def pySplit (s : String) (sep : Char) : List String := pySplitAux sep [] s.data

/-- A variant is a Python dict from parameter name to value, modelled as an
insertion-ordered association list. -/
abbrev Variant := List (String × String)

/-- Python dict assignment `d[k] = v` on an insertion-ordered dict: replace
the value in place when the key is present, otherwise append the new pair
at the end. -/
def dictInsert (d : Variant) (k v : String) : Variant :=
  if d.any (fun p => p.1 == k) then
    d.map (fun p => if p.1 == k then (k, v) else p)
  else d ++ [(k, v)]

/-- The two shapes of the `parameters` entry of a benchmark definition
(command_utils.py, `create_variants`): a declarative list whose first
element is the list of parameter names and whose remaining elements are
value rows, or an insertion-ordered mapping from parameter name to a
comma-separated value string.  Values are strings (the source applies
`str` to each). -/
inductive ParamSpec where
  | plist (names : List String) (rows : List (List String)) : ParamSpec
  | pdict (entries : List (String × String)) : ParamSpec

/-- Embedding of create_variants, command_utils.py lines 55-93.  Declarative mode
(lines 58-67): one variant per value row, built by zipping the names with
the row into a fresh dict.  Matrix mode (lines 70-81): fold over the
entries in insertion order; for each entry the new variant list is built
value-major (outer loop over the split values, inner loop over the
previous variants).  The source guard `if v is not None` is always true
for the strings produced by `split` and is therefore dropped. -/
def create_variants : ParamSpec → List Variant
  | .plist names rows =>
    rows.map (fun row => (names.zip row).foldl (fun d p => dictInsert d p.1 p.2) [])
  | .pdict entries =>
    entries.foldl
      (fun variants p =>
        (pySplit p.2 ',').flatMap (fun v => variants.map (fun c => dictInsert c p.1 v)))
      [[]]

/-- Written from the words of the spec, for comparison with
`create_variants`: the full cartesian product over the entries in order,
with the first (earliest) parameter varying slowest, as section 4.1 of the
spec states it. -/
def spec_cartesian_slowest_first : List (String × String) → List Variant
  | [] => [[]]
  | (n, vs) :: rest =>
    (pySplit vs ',').flatMap
      (fun v => (spec_cartesian_slowest_first rest).map (fun t => (n, v) :: t))

/-- A numeric value parsed from a regex match by `float(match)` in
extract_metrics: either NaN or a rational number (the embedding uses exact
rationals for the arithmetic the source performs on floats). -/
inductive FVal where
  | nan : FVal
  | num (q : ℚ) : FVal
deriving DecidableEq

/-- Whether the parsed value is NaN (`math.isnan` in the source). -/
def FVal.isNaN : FVal → Bool
  | .nan => true
  | .num _ => false

/-- The numeric content of a parsed value.  Only used on the code path
where the NaN guard has already ruled out NaNs, so the value chosen for
`nan` is irrelevant there. -/
def FVal.toQ : FVal → ℚ
  | .nan => 0
  | .num q => q

/-- The four reduction kinds of the metrics pipeline, as the data model of
the spec fixes them and as extract_metrics dispatches on them
(metrics_utils.py lines 255-269). -/
inductive ReductionType where
  | mean : ReductionType
  | final : ReductionType
  | min : ReductionType
  | value : ReductionType
deriving DecidableEq

/-- One metric extraction rule together with the numeric values its regular
expression matched in the combined stdout+stderr log.  The regular
expression application itself (metrics_utils.py lines 236-243) is
abstracted: `matched` stands for `all_results`, in match order. -/
structure MetricRule where
  reduction : ReductionType
  skip : Nat
  matched : List FVal

/-- Per-metric body of `extract_metrics` (metrics_utils.py lines 230-282),
from the point where `all_results` has been collected.  `none` models the
Python `result = None` left by the three failure guards; otherwise the
reduction runs: for `mean` the results are sorted (descending for a metric
named "latency", ascending otherwise) and the first `skip` entries
dropped; `final` takes the last raw match, `min` the minimum and `value`
the first.  A metric named "throughput" is multiplied by the replica
count (lines 275-276).  The `getD 0` defaults are unreachable: the guard
`length ≤ skip` failing forces a nonempty match list. -/
def extract_metric (name : String) (reduction : ReductionType) (skip : Nat)
    (all_results : List FVal) (exitcode : Int) (num_replicas : ℚ) : Option ℚ :=
  if all_results.any FVal.isNaN then none
  else if exitcode ≠ 0 then none
  else if all_results.length ≤ skip then none
  else
    let qs := all_results.map FVal.toQ
    let r :=
      match reduction with
      | .mean =>
        let sorted :=
          if name = "latency" then List.insertionSort (fun a b => b ≤ a) qs
          else List.insertionSort (fun a b => a ≤ b) qs
        let remainder := sorted.drop skip
        remainder.sum / (remainder.length : ℚ)
      | .final => (qs.getLast?).getD 0
      | .min => (qs.min?).getD 0
      | .value => qs.headD 0
    some (if name = "throughput" then r * num_replicas else r)

/-- Embedding of extract_metrics over a whole extraction config (metrics_utils.py
lines 226-284): one result per rule, and the failure flag
`did_extraction_fail`, true exactly when some metric was left without a
value. -/
def extract_metrics (config : List (String × MetricRule)) (exitcode : Int)
    (num_replicas : ℚ) : List (String × Option ℚ) × Bool :=
  let out := config.map
    (fun p => (p.1, extract_metric p.1 p.2.reduction p.2.skip p.2.matched exitcode num_replicas))
  (out, out.any (fun p => p.2.isNone))

/-- Written from the words of the claim, for comparison with
`extract_metric`: sort the matches (descending for a metric named
"latency", ascending otherwise), drop the first `skip` entries, then
`mean` is the arithmetic mean of the remainder, `final` the last raw
match, `min` the minimum of all matches and `value` the first raw match.
No replica scaling appears here. -/
def claimed_reduction (name : String) (reduction : ReductionType) (skip : Nat)
    (qs : List ℚ) : ℚ :=
  let sorted :=
    if name = "latency" then List.insertionSort (fun a b => b ≤ a) qs
    else List.insertionSort (fun a b => a ≤ b) qs
  let remainder := sorted.drop skip
  match reduction with
  | .mean => remainder.sum / (remainder.length : ℚ)
  | .final => (qs.getLast?).getD 0
  | .min => (qs.min?).getD 0
  | .value => qs.headD 0

/-- The exit code recorded in a VariantResult (run_benchmarks.py lines
436-460): the process exit code, overridden to 1 when extraction or
derivation failed while the process itself exited zero. -/
def variant_result_exitcode (process_exitcode : Int)
    (extraction_failure derivation_failure : Bool) : Int :=
  if (extraction_failure || derivation_failure) && process_exitcode == 0 then 1
  else process_exitcode

/-- Embedding of should_reattempt_benchmark, run_benchmarks.py lines 76-84.  The
variant dict is represented by its `cmd` entry, the only field read.
Python returns False or a message string; this is modelled as an Option,
`none` meaning no re-run. -/
def should_reattempt_benchmark (variant_cmd output err : String)
    (exitcode : Int) : Option String :=
  if strContains err "Timeout" then none
  else
    let is_a_notebook := strContains variant_cmd "examples_utils.benchmarks.notebook_utils"
    if is_a_notebook && strContains err "ModuleNotFoundError" && (exitcode != 0)
        && strContains output "Successfully installed" then
      some "Notebook has installed some packages, need to restart kernel"
    else none

/-- The stderr returned by `run_and_monitor_progress` (run_benchmarks.py
lines 192-195): the accumulated stderr of the process with the timeout
marker appended when the watchdog killed the process. -/
def monitored_stderr (err : String) (timeout_error : Bool) (timeout : Nat) : String :=
  if timeout_error then err ++ "\nTimeout (" ++ toString timeout ++ ")\n" else err

/-- The decision taken by `run_benchmark_variant` (run_benchmarks.py lines
284-298) of whether `setup_distributed_filesystems` runs, for a variant
that is not submitted to the job queue: the host list must have more than
one entry, the run must not be compile-only, and code sync must not be
disabled. -/
def distributed_sync_performed (poprun_hostnames : List String)
    (compile_only no_code_sync : Bool) : Bool :=
  let is_distributed := decide (poprun_hostnames.length > 1) && !compile_only
  if is_distributed then (if no_code_sync then false else true) else false

/-- Written from the words of the spec, for comparison with
`distributed_sync_performed`: synchronization happens when the discovered
host set is non-empty, the run is not compile-only and code sync is
enabled. -/
def spec_sync_condition (poprun_hostnames : List String)
    (compile_only no_code_sync : Bool) : Bool :=
  !poprun_hostnames.isEmpty && !compile_only && !no_code_sync

/-- What one variant run produced, as far as exit codes are concerned:
the process exit code and the two metric failure flags computed by
`extract_metrics` and `derive_metrics`. -/
structure VariantOutcome where
  process_exitcode : Int
  extraction_failure : Bool
  derivation_failure : Bool

/-- Exit code of the whole CLI invocation (`main` in examples_utils/
__main__.py together with `run_benchmarks_from_spec`).  Variants run in
order; `run_benchmark_variant` raises only when the process exit code is
nonzero and stop-on-error is set (run_benchmarks.py lines 358-369), and
that error propagates uncaught out of `main`, making the interpreter exit
nonzero (modelled as 1).  On every other path `main` returns normally and
the interpreter exits 0, whatever exit codes the VariantResults recorded. -/
def invocation_exitcode : List VariantOutcome → Bool → Int
  | [], _ => 0
  | o :: rest, stop_on_error =>
    if (o.process_exitcode != 0) && stop_on_error then 1
    else invocation_exitcode rest stop_on_error

/-- Whether a host-list entry matches one of the identifiers of the local
machine: `any(hostname in x for x in possible_hostnames)` in
command_utils.py line 314 (substring containment, entry inside
identifier). -/
def matches_local (possible_hostnames : List String) (hostname : String) : Bool :=
  possible_hostnames.any (fun x => strContains x hostname)

/-- The Python loop `for hostname in poprun_hostnames: if ...:
poprun_hostnames.remove(hostname)` (command_utils.py lines 313-315),
which removes entries from the list it iterates over.  CPython iterates
by position: at index `i` it reads the current element, possibly calls
`remove` (which deletes the first occurrence equal to it), then moves to
index `i + 1` of the possibly shortened list.  The fuel argument only
makes the recursion structural: the index grows by one per step while the
list never grows, so a fuel equal to the initial length is never
exhausted before the index runs off the end. -/
def pyRemoveAux (p : String → Bool) : Nat → List String → Nat → List String
  | 0, lst, _ => lst
  | fuel + 1, lst, i =>
    match lst[i]? with
    | none => lst
    | some x =>
      if p x then pyRemoveAux p fuel (lst.erase x) (i + 1)
      else pyRemoveAux p fuel lst (i + 1)

/-- Embedding of get_local_poprun_hosts (command_utils.py lines 288-327) from the
point where the host list has been parsed, parameterized by the local
machine identifiers the source obtains from `os.uname` and `hostname -I`
(lines 297-310): run the removal loop, then, when the length is unchanged
(no entry was removed), assume the first entry is the local host and drop
it. -/
def get_local_poprun_hosts (poprun_hostnames possible_hostnames : List String) :
    List String :=
  let num_hosts := poprun_hostnames.length
  let remaining :=
    pyRemoveAux (matches_local possible_hostnames) poprun_hostnames.length
      poprun_hostnames 0
  if remaining.length = num_hosts then remaining.drop 1 else remaining

/-- The removal pass the code actually performs, stated structurally: a
left-to-right scan; a matching entry is removed, but the entry coming
right after a removed one slides into its slot and is skipped unexamined.
Used to state the amended claim about `get_local_poprun_hosts`. -/
def scan_remove_skip_next (p : String → Bool) : List String → List String
  | [] => []
  | [x] => if p x then [] else [x]
  | x :: y :: rest =>
    if p x then y :: scan_remove_skip_next p rest
    else x :: scan_remove_skip_next p (y :: rest)

/-- Written from the words of the spec, for comparison with
`get_local_poprun_hosts`: remove every entry that matches a local
identifier; if nothing matched (the count is unchanged), drop the first
entry. -/
def spec_local_poprun_hosts (poprun_hostnames possible_hostnames : List String) :
    List String :=
  let kept := poprun_hostnames.filter (fun h => !matches_local possible_hostnames h)
  if kept.length = poprun_hostnames.length then kept.drop 1 else kept

/-- One step of `re.findall(pattern="pod(\d+)", string=...)`: at the
current position the pattern matches when the next characters are the
literal `pod` followed by at least one digit; the capture group is the
maximal digit run, and scanning resumes right after it (matches do not
overlap); on failure the scanner advances one character.  The fuel only
makes the recursion structural: every step consumes at least one
character, so a fuel equal to the input length is never exhausted
early. -/
def podScanAux : Nat → List Char → List String
  | 0, _ => []
  | _ + 1, [] => []
  | fuel + 1, c :: rest =>
    if c = 'p' ∧ rest.take 2 = ['o', 'd'] ∧ (rest.drop 2).takeWhile Char.isDigit ≠ [] then
      let ds := (rest.drop 2).takeWhile Char.isDigit
      String.mk ds :: podScanAux fuel ((rest.drop 2).drop ds.length)
    else podScanAux fuel rest

/-- All matches of the regular expression pod followed by digits in a
string, as re.findall returns them: the list of captured digit groups,
left to right. -/
def podFindall (s : String) : List String := podScanAux s.data.length s.data

/-- Embedding of get_num_ipus, command_utils.py lines 195-207.  The malformed-name
branch guards on the match count being negative, which a length never is;
the else branch takes the first match, which in Python raises IndexError
on an empty match list (modelled as an error value).  The digit group is
returned as a string, exactly as the source does despite its `int`
annotation. -/
def get_num_ipus (benchmark_name : String) : Except String String :=
  let num_ipus := podFindall benchmark_name
  if num_ipus.length < 0 then
    Except.error "ValueError: malformed benchmark name"
  else
    match num_ipus with
    | [] => Except.error "IndexError: list index out of range"
    | g :: _ => Except.ok g

/-- A benchmark name contains a `pod<digits>` substring: somewhere in it
the literal `pod` is followed by at least one digit. -/
def HasPodDigits (s : String) : Prop :=
  ∃ pre d post, d.isDigit = true ∧ s.data = pre ++ 'p' :: 'o' :: 'd' :: d :: post


/-- Claim C1: the exit code recorded in a VariantResult is nonzero exactly
when the process exited nonzero or a raw or derived metric failed; it is
either the process exit code itself, or 1 in the case where the process
exited zero and a metric failure occurred, so a nonzero process exit code
is never overwritten. -/
theorem variant_exitcode_failure_invariant (e : Int) (ef df : Bool) :
    (variant_result_exitcode e ef df ≠ 0 ↔ (e ≠ 0 ∨ ef = true ∨ df = true))
    ∧ (variant_result_exitcode e ef df = e
        ∨ (e = 0 ∧ (ef = true ∨ df = true) ∧ variant_result_exitcode e ef df = 1)) := by
  unfold variant_result_exitcode
  by_cases he : e = 0 <;> cases ef <;> cases df <;> simp [he, beq_iff_eq]

/-- Claim C8 (amended): for a variant that is not a queue submission, the
distributed filesystem synchronization runs exactly when the discovered
host list has more than one entry, the run is not compile-only, and code
sync has not been disabled. -/
theorem distributed_sync_iff (hosts : List String) (co ncs : Bool) :
    distributed_sync_performed hosts co ncs = true ↔
      (1 < hosts.length ∧ co = false ∧ ncs = false) := by
  unfold distributed_sync_performed
  cases co <;> cases ncs <;> simp

/-- Claim C8 counterexample: with exactly one discovered host (a non-empty
host set), no compile-only mode and code sync enabled, the claim demands a
synchronization but the code performs none, because it requires strictly
more than one host. -/
theorem distributed_sync_single_host_counterexample :
    distributed_sync_performed ["host1"] false false = false
    ∧ spec_sync_condition ["host1"] false false = true := by
  decide

/-- Claim C9 (amended): the exit code of the whole invocation is nonzero
exactly when stop-on-error is set and some variant process exited nonzero;
in every other case, including metric extraction or derivation failures
that force a VariantResult exit code to 1 while the process exited zero,
the invocation exits zero. -/
theorem invocation_exitcode_iff (outcomes : List VariantOutcome) (stop : Bool) :
    invocation_exitcode outcomes stop ≠ 0 ↔
      (stop = true ∧ ∃ o ∈ outcomes, o.process_exitcode ≠ 0) := by
  induction outcomes with
  | nil => simp [invocation_exitcode]
  | cons o rest ih =>
    rw [invocation_exitcode]
    by_cases h : o.process_exitcode = 0 <;> cases stop <;> simp [h, ih]

/-- Claim C9 counterexample: a variant whose process exited zero but whose
metric extraction failed gets VariantResult exit code 1, yet the
invocation exits zero whether or not stop-on-error is set; likewise a
process failure without stop-on-error leaves the invocation exit code
zero. -/
theorem invocation_exit_zero_despite_variant_failure :
    variant_result_exitcode 0 true false = 1
    ∧ invocation_exitcode [⟨0, true, false⟩] true = 0
    ∧ invocation_exitcode [⟨0, true, false⟩] false = 0
    ∧ variant_result_exitcode 1 false false = 1
    ∧ invocation_exitcode [⟨1, false, false⟩] false = 0 := by
  decide

/-- Claim C5 (amended): a metric value is left absent exactly when the
process exit code is nonzero, or some matched value is NaN, or the number
of matches is at most the skip value (not only when it is strictly
smaller); and the extraction failure flag is set exactly when some metric
of the config was left absent. -/
theorem extract_metric_absent_iff (name : String) (red : ReductionType) (skip : Nat)
    (vals : List FVal) (ec : Int) (nr : ℚ) (config : List (String × MetricRule)) :
    (extract_metric name red skip vals ec nr = none ↔
      (ec ≠ 0 ∨ vals.any FVal.isNaN = true ∨ vals.length ≤ skip))
    ∧ ((extract_metrics config ec nr).2 = true ↔
        ∃ p ∈ config,
          extract_metric p.1 p.2.reduction p.2.skip p.2.matched ec nr = none) := by
  constructor
  · unfold extract_metric
    split_ifs with h1 h2 h3
    · simp [h1]
    · simp [h1, h2]
    · simp [h1, h2, h3]
    · simp [h1, h2, h3]
  · unfold extract_metrics
    simp only [List.any_map, List.any_eq_true, Function.comp, Option.isNone_iff_eq_none]
    constructor
    · rintro ⟨x, hx, hnone⟩
      obtain ⟨p, hp, rfl⟩ := List.mem_map.mp hx
      exact ⟨p, hp, hnone⟩
    · rintro ⟨p, hp, hnone⟩
      exact ⟨_, List.mem_map_of_mem _ hp, hnone⟩

/-- Claim C5 counterexample: one match with skip 1 and a clean exit; there
are not fewer matches than skip, no NaN and a zero exit code, so the claim
predicts a produced value, but the code leaves the metric absent because
it fails whenever the match count is less than or equal to skip. -/
theorem extract_metric_skip_boundary_counterexample :
    extract_metric "accuracy" .mean 1 [.num 1] 0 1 = none
    ∧ ¬((0 : Int) ≠ 0 ∨ ([FVal.num 1]).any FVal.isNaN = true
        ∨ ([FVal.num 1]).length < 1) := by
  refine ⟨rfl, by decide⟩

/-- Claim C4 (amended): whenever extraction succeeds, the produced value is
the reduction the claim describes (sorted descending for "latency" and
ascending otherwise, first `skip` entries dropped, then mean of the
remainder, last raw match, minimum, or first raw match), except that a
metric named "throughput" additionally has that reduced value multiplied
by the replica count. -/
theorem extract_metric_reduction_characterization (name : String)
    (red : ReductionType) (skip : Nat) (vals : List FVal) (ec : Int) (nr : ℚ)
    (r : ℚ) (h : extract_metric name red skip vals ec nr = some r) :
    r = (if name = "throughput"
         then claimed_reduction name red skip (vals.map FVal.toQ) * nr
         else claimed_reduction name red skip (vals.map FVal.toQ)) := by
  unfold extract_metric at h
  by_cases h1 : vals.any FVal.isNaN = true
  · rw [if_pos h1] at h
    exact absurd h (by simp)
  rw [if_neg h1] at h
  by_cases h2 : ec ≠ 0
  · rw [if_pos h2] at h
    exact absurd h (by simp)
  rw [if_neg h2] at h
  by_cases h3 : vals.length ≤ skip
  · rw [if_pos h3] at h
    exact absurd h (by simp)
  rw [if_neg h3] at h
  dsimp only at h
  rw [Option.some_inj] at h
  subst h
  unfold claimed_reduction
  cases red <;> rfl

/-- Claim C4 witness: three matches 3, 1 and 2 for a mean metric with skip
1 produce the mean of the two largest matches after the ascending sort,
5 / 2, and that value is exactly the claimed reduction. -/
theorem extract_metric_reduction_witness :
    extract_metric "accuracy" .mean 1 [.num 3, .num 1, .num 2] 0 1 = some (5 / 2)
    ∧ claimed_reduction "accuracy" .mean 1
        ([FVal.num 3, FVal.num 1, FVal.num 2].map FVal.toQ) = 5 / 2 := by
  have h : extract_metric "accuracy" .mean 1 [.num 3, .num 1, .num 2] 0 1
      = some (5 / 2) := by
    norm_num [extract_metric, FVal.toQ, FVal.isNaN, List.insertionSort,
      List.orderedInsert]
    rw [if_neg (by decide)]
    norm_num
  have h2 := extract_metric_reduction_characterization "accuracy" .mean 1
    [.num 3, .num 1, .num 2] 0 1 (5 / 2) h
  rw [if_neg (by decide)] at h2
  exact ⟨h, h2.symm⟩

/-- Claim C4 counterexample: for a succeeding metric named "throughput"
with matches 3, 1 and 2, skip 1 and replica count 2, the recorded value is
5, not the arithmetic mean 5 / 2 of the remainder that the claim
predicts: the code multiplies the reduced value by the replica count. -/
theorem extract_metric_throughput_counterexample :
    extract_metric "throughput" .mean 1 [.num 3, .num 1, .num 2] 0 2 = some 5
    ∧ claimed_reduction "throughput" .mean 1
        ([FVal.num 3, FVal.num 1, FVal.num 2].map FVal.toQ) = 5 / 2
    ∧ (5 : ℚ) ≠ 5 / 2 := by
  refine ⟨?_, ?_, by norm_num⟩
  · norm_num [extract_metric, FVal.toQ, FVal.isNaN, List.insertionSort,
      List.orderedInsert]
    rw [if_neg (by decide)]
    norm_num
  · norm_num [claimed_reduction, FVal.toQ, List.insertionSort, List.orderedInsert]
    rw [if_neg (by decide)]
    norm_num

/-- The timeout marker appended by the process supervisor makes the
returned stderr contain the substring "Timeout". -/
theorem timeout_marker_in_monitored_stderr (err0 : String) (t : Nat) :
    strContains (monitored_stderr err0 true t) "Timeout" = true := by
  unfold monitored_stderr strContains
  rw [if_pos rfl, decide_eq_true_iff]
  refine ⟨err0.data ++ ['\n'], " (".data ++ (toString t).data ++ ")\n".data, ?_⟩
  have hseg : "\nTimeout (".data = ('\n' :: "Timeout".data) ++ " (".data := by decide
  simp [String.data_append, hseg, List.append_assoc]

/-- Claim C6: a timed-out run is never retried: the supervisor appends a
"Timeout" marker to the captured stderr when the watchdog kills the
process, and the retry predicate returns no-retry for every outcome whose
stderr contains that marker, whatever the other retry conditions say. -/
theorem timeout_never_reattempted (cmd out err err0 : String) (timeout : Nat)
    (ec : Int) (h : strContains err "Timeout" = true) :
    should_reattempt_benchmark cmd out err ec = none
    ∧ strContains (monitored_stderr err0 true timeout) "Timeout" = true
    ∧ should_reattempt_benchmark cmd out (monitored_stderr err0 true timeout) ec
        = none := by
  have hm := timeout_marker_in_monitored_stderr err0 timeout
  refine ⟨?_, hm, ?_⟩
  · unfold should_reattempt_benchmark
    rw [if_pos h]
  · unfold should_reattempt_benchmark
    rw [if_pos hm]

/-- Claim C6 witness: an outcome satisfying every other retry condition (a
notebook command, a ModuleNotFoundError, a nonzero exit code and a
successful package install) is still not retried once the stderr carries
the timeout marker. -/
theorem timeout_never_reattempted_witness :
    should_reattempt_benchmark
      "python3 -m examples_utils.benchmarks.notebook_utils nb.ipynb ."
      "Successfully installed pkg"
      "ModuleNotFoundError\nTimeout (10)\n" 2 = none := by
  exact (timeout_never_reattempted _ _ _ "" 10 2 (by decide)).1

/-- Inserting a key that is not present in the dict appends the pair. -/
theorem dictInsert_fresh (d : Variant) (k v : String) (h : ∀ p ∈ d, p.1 ≠ k) :
    dictInsert d k v = d ++ [(k, v)] := by
  unfold dictInsert
  rw [if_neg]
  simp only [List.any_eq_true, beq_iff_eq, not_exists]
  intro p hmem
  exact h p hmem.1 hmem.2

/-- Folding dict assignments of pairwise fresh keys over an accumulator just
appends the pairs in order. -/
theorem foldl_dictInsert_append :
    ∀ (l : List (String × String)) (acc : Variant),
      (l.map Prod.fst).Nodup → (∀ q ∈ l, ∀ p ∈ acc, p.1 ≠ q.1) →
      l.foldl (fun d p => dictInsert d p.1 p.2) acc = acc ++ l := by
  intro l
  induction l with
  | nil => intro acc _ _; simp
  | cons q t ih =>
    intro acc hnd hdisj
    simp only [List.foldl_cons]
    rw [dictInsert_fresh acc q.1 q.2
      (fun p hp => hdisj q (List.mem_cons_self q t) p hp)]
    rw [List.map_cons] at hnd
    obtain ⟨hq1, hnd'⟩ := List.nodup_cons.mp hnd
    rw [ih (acc ++ [(q.1, q.2)]) hnd' ?_]
    · simp
    · intro r hr p hp
      rcases List.mem_append.mp hp with hpa | hpq
      · exact hdisj r (List.mem_cons_of_mem q hr) p hpa
      · have : p = (q.1, q.2) := by simpa using hpq
        subst this
        intro heq
        exact hq1 (heq ▸ List.mem_map_of_mem Prod.fst hr)

/-- The keys of a zip form a sublist of the name list. -/
theorem zip_map_fst_sublist :
    ∀ (names row : List String), ((names.zip row).map Prod.fst).Sublist names
  | [], _ => by simp
  | _ :: _, [] => by simp
  | a :: t, b :: r => by simpa using (zip_map_fst_sublist t r).cons₂ a

/-- Claim C2 (amended): for distinct parameter names, declarative expansion
returns exactly one variant per value row (not the minimum of the row
lengths), the i-th variant being the zip of the names with the i-th row,
truncated at the shorter of the two. -/
theorem create_variants_declarative (names : List String)
    (rows : List (List String)) (h : names.Nodup) :
    create_variants (.plist names rows) = rows.map (fun row => names.zip row)
    ∧ (create_variants (.plist names rows)).length = rows.length := by
  have hmain : ∀ row : List String,
      (names.zip row).foldl (fun d p => dictInsert d p.1 p.2) [] = names.zip row := by
    intro row
    have := foldl_dictInsert_append (names.zip row) []
      ((zip_map_fst_sublist names row).nodup h) (by simp)
    simpa using this
  constructor
  · simp only [create_variants]
    exact List.map_congr_left (fun row _ => hmain row)
  · simp [create_variants]

/-- Claim C2 witness: two names and two value rows give two variants, each
the zip of the names with its row. -/
theorem create_variants_declarative_witness :
    create_variants (.plist ["bs", "ga"] [["3", "150"], ["4", "120"]]) =
      [[("bs", "3"), ("ga", "150")], [("bs", "4"), ("ga", "120")]] := by
  rw [(create_variants_declarative ["bs", "ga"] [["3", "150"], ["4", "120"]]
    (by decide)).1]
  decide

/-- Claim C2 counterexample: one name with two one-element value rows, so
every row length is 1 and the claimed count min(L1..Lk) is 1, but
create_variants returns one variant per row, here 2. -/
theorem create_variants_declarative_count_counterexample :
    (create_variants (.plist ["a"] [["1"], ["2"]])).length = 2
    ∧ (([["1"], ["2"]] : List (List String)).map List.length).min? = some 1
    ∧ (2 : Nat) ≠ 1 := by
  decide

/-- Every tuple of the spec cartesian product carries exactly the parameter
names of the entries, in order. -/
theorem spec_cartesian_keys :
    ∀ (entries : List (String × String)) (t : Variant),
      t ∈ spec_cartesian_slowest_first entries →
      t.map Prod.fst = entries.map Prod.fst := by
  intro entries
  induction entries with
  | nil =>
    intro t ht
    simp only [spec_cartesian_slowest_first, List.mem_singleton] at ht
    subst ht
    simp
  | cons e rest ih =>
    obtain ⟨n, vs⟩ := e
    intro t ht
    simp only [spec_cartesian_slowest_first, List.mem_flatMap, List.mem_map] at ht
    obtain ⟨v, hv, u, hu, heq⟩ := ht
    subst heq
    simp [ih u hu]

/-- The matrix fold of create_variants, unfolded once from the right and
rewritten to the spec cartesian product over the reversed entry list. -/
theorem matrix_foldl_spec :
    ∀ (entries : List (String × String)),
      (entries.map Prod.fst).Nodup →
      entries.foldl
        (fun variants p =>
          (pySplit p.2 ',').flatMap (fun v => variants.map (fun c => dictInsert c p.1 v)))
        [[]]
      = (spec_cartesian_slowest_first entries.reverse).map List.reverse := by
  intro entries
  induction entries using List.reverseRecOn with
  | nil => simp [spec_cartesian_slowest_first]
  | append_singleton ps p ih =>
    intro hnd
    obtain ⟨n, vs⟩ := p
    rw [List.map_append] at hnd
    have hnd' : (ps.map Prod.fst).Nodup := hnd.of_append_left
    have hfresh : n ∉ ps.map Prod.fst := by
      rw [List.nodup_append] at hnd
      intro hm
      exact hnd.2.2 hm (by simp)
    rw [List.foldl_append, List.foldl_cons, List.foldl_nil, ih hnd',
      List.reverse_append]
    simp only [List.reverse_singleton, List.singleton_append,
      spec_cartesian_slowest_first, List.map_flatMap]
    refine congrArg (List.flatMap (pySplit vs ',')) (funext fun v => ?_)
    rw [List.map_map, List.map_map]
    refine List.map_congr_left (fun t ht => ?_)
    simp only [Function.comp_apply]
    rw [List.reverse_cons]
    refine dictInsert_fresh t.reverse n v (fun q hq => ?_)
    intro heq
    apply hfresh
    rw [← heq]
    have : q.1 ∈ (t.map Prod.fst) := List.mem_map_of_mem Prod.fst (List.mem_reverse.mp hq)
    rw [spec_cartesian_keys ps.reverse t ht, List.map_reverse, List.mem_reverse] at this
    exact this

/-- The matrix fold multiplies the variant count by the size of each value
set, whatever list it starts from. -/
theorem matrix_foldl_length :
    ∀ (entries : List (String × String)) (init : List Variant),
      (entries.foldl
        (fun variants p =>
          (pySplit p.2 ',').flatMap (fun v => variants.map (fun c => dictInsert c p.1 v)))
        init).length
      = init.length * (entries.map (fun p => (pySplit p.2 ',').length)).prod := by
  intro entries
  induction entries with
  | nil => intro init; simp
  | cons e t ih =>
    intro init
    simp only [List.foldl_cons]
    rw [ih]
    simp only [List.length_flatMap, Function.comp_def, List.length_map,
      List.map_const', List.sum_replicate, smul_eq_mul, List.map_cons,
      List.prod_cons]
    ring

/-- Claim C3 (amended): matrix expansion is the full cartesian product and
the variant count is the product of the value-set sizes; the entries are
processed in insertion order, but earlier parameters vary fastest: the
result equals the slowest-first cartesian product of the entries taken in
reverse order. -/
theorem create_variants_matrix (entries : List (String × String))
    (h : (entries.map Prod.fst).Nodup) :
    create_variants (.pdict entries)
      = (spec_cartesian_slowest_first entries.reverse).map List.reverse
    ∧ (create_variants (.pdict entries)).length
      = (entries.map (fun p => (pySplit p.2 ',').length)).prod := by
  constructor
  · simp only [create_variants]
    exact matrix_foldl_spec entries h
  · simp only [create_variants]
    rw [matrix_foldl_length entries [[]]]
    simp

/-- Claim C3 witness: two parameters with two values each give the four
cartesian combinations. -/
theorem create_variants_matrix_witness :
    create_variants (.pdict [("a", "1,2"), ("b", "x,y")]) =
      [[("a", "1"), ("b", "x")], [("a", "2"), ("b", "x")],
        [("a", "1"), ("b", "y")], [("a", "2"), ("b", "y")]]
    ∧ (create_variants (.pdict [("a", "1,2"), ("b", "x,y")])).length = 4 := by
  have h := create_variants_matrix [("a", "1,2"), ("b", "x,y")] (by decide)
  constructor
  · rw [h.1]
    decide
  · rw [h.2]
    decide

/-- Claim C3 counterexample: for the parameters a = 1,2 then b = x,y the
claimed ordering (the earlier parameter a varying slowest) differs from
what create_variants returns, where a varies fastest across the list. -/
theorem create_variants_matrix_order_counterexample :
    create_variants (.pdict [("a", "1,2"), ("b", "x,y")]) =
      [[("a", "1"), ("b", "x")], [("a", "2"), ("b", "x")],
        [("a", "1"), ("b", "y")], [("a", "2"), ("b", "y")]]
    ∧ spec_cartesian_slowest_first [("a", "1,2"), ("b", "x,y")] =
      [[("a", "1"), ("b", "x")], [("a", "1"), ("b", "y")],
        [("a", "2"), ("b", "x")], [("a", "2"), ("b", "y")]]
    ∧ create_variants (.pdict [("a", "1,2"), ("b", "x,y")]) ≠
      spec_cartesian_slowest_first [("a", "1,2"), ("b", "x,y")] := by
  decide

/-- The pod scanner finds no match exactly when the input has no occurrence
of the literal `pod` followed by a digit, provided the fuel covers the
input length. -/
theorem podScanAux_eq_nil_iff :
    ∀ (fuel : Nat) (cs : List Char), cs.length ≤ fuel →
      (podScanAux fuel cs = [] ↔
        ¬ ∃ pre d post, d.isDigit = true ∧ cs = pre ++ 'p' :: 'o' :: 'd' :: d :: post) := by
  intro fuel
  induction fuel with
  | zero =>
    intro cs hcs
    have hnil : cs = [] := List.length_eq_zero.mp (Nat.le_zero.mp hcs)
    subst hnil
    simp only [podScanAux, true_iff]
    rintro ⟨pre, d, post, hd, h⟩
    simp at h
  | succ fuel ihf =>
    intro cs hcs
    match cs with
    | [] =>
      simp only [podScanAux, true_iff]
      rintro ⟨pre, d, post, hd, h⟩
      simp at h
    | c :: rest =>
      simp only [podScanAux]
      by_cases hcond : c = 'p' ∧ rest.take 2 = ['o', 'd']
          ∧ (rest.drop 2).takeWhile Char.isDigit ≠ []
      · rw [if_pos hcond]
        obtain ⟨hc, ht, hdig⟩ := hcond
        subst hc
        obtain ⟨rest2, hrest⟩ : ∃ rest2, rest = 'o' :: 'd' :: rest2 := by
          cases rest with
          | nil => simp at ht
          | cons a r1 =>
            cases r1 with
            | nil => simp at ht
            | cons b r2 =>
              simp only [List.take_succ_cons, List.take_zero, List.cons.injEq,
                and_true] at ht
              exact ⟨r2, by rw [ht.1, ht.2]⟩
        subst hrest
        simp only [List.drop_succ_cons, List.drop_zero] at hdig
        obtain ⟨d0, post0, hrest2, hd0⟩ :
            ∃ d0 post0, rest2 = d0 :: post0 ∧ d0.isDigit = true := by
          cases rest2 with
          | nil => simp at hdig
          | cons d0 post0 =>
            refine ⟨d0, post0, rfl, ?_⟩
            by_contra hnd
            rw [Bool.not_eq_true] at hnd
            rw [List.takeWhile_cons, hnd] at hdig
            simp at hdig
        subst hrest2
        constructor
        · intro habs
          exact absurd habs (List.cons_ne_nil _ _)
        · intro hno
          exact absurd ⟨[], d0, post0, hd0, rfl⟩ hno
      · rw [if_neg hcond]
        have hlen : rest.length ≤ fuel := by
          simp only [List.length_cons] at hcs
          omega
        rw [ihf rest hlen]
        apply not_congr
        constructor
        · rintro ⟨pre, d, post, hd, hr⟩
          exact ⟨c :: pre, d, post, hd, by simp [hr]⟩
        · rintro ⟨pre, d, post, hd, hceq⟩
          match pre, hceq with
          | [], hceq =>
            simp only [List.nil_append, List.cons.injEq] at hceq
            obtain ⟨hcp, hrest⟩ := hceq
            exfalso
            apply hcond
            refine ⟨hcp, ?_, ?_⟩
            · rw [hrest]
              rfl
            · rw [hrest]
              simp [List.takeWhile_cons, hd]
          | a :: pre', hceq =>
            simp only [List.cons_append, List.cons.injEq] at hceq
            exact ⟨pre', d, post, hd, hceq.2⟩

/-- Claim C10: in get_num_ipus the malformed-name error branch is
unreachable (its guard compares a length against being negative), so for
a name with no pod-digits substring the function fails with the
out-of-range index access on the empty match list instead of the
documented diagnostic, and for a name containing such a substring it
returns the first digit group. -/
theorem get_num_ipus_behavior (name : String) :
    (¬ (podFindall name).length < 0)
    ∧ (podFindall name = [] ↔ ¬ HasPodDigits name)
    ∧ (podFindall name = [] →
        get_num_ipus name = Except.error "IndexError: list index out of range")
    ∧ (∀ g rest, podFindall name = g :: rest → get_num_ipus name = Except.ok g) := by
  refine ⟨by omega, podScanAux_eq_nil_iff name.data.length name.data le_rfl, ?_, ?_⟩
  · intro h
    simp [get_num_ipus, h]
  · intro g rest h
    simp [get_num_ipus, h]

/-- Claim C10 witness: a name with a pod16 substring yields the first digit
group, and a name without any pod-digits substring hits the IndexError
path, not the documented ValueError. -/
theorem get_num_ipus_behavior_witness :
    get_num_ipus "resnet50_pod16" = Except.ok "16"
    ∧ get_num_ipus "bert_large" = Except.error "IndexError: list index out of range"
    ∧ ¬ HasPodDigits "bert_large" := by
  refine ⟨(get_num_ipus_behavior "resnet50_pod16").2.2.2 "16" [] (by decide),
    (get_num_ipus_behavior "bert_large").2.2.1 (by decide),
    (get_num_ipus_behavior "bert_large").2.1.mp (by decide)⟩

/-- The skip-next scan keeps a non-matching head. -/
theorem scan_cons_neg (p : String → Bool) (x : String) (t : List String)
    (h : p x = false) :
    scan_remove_skip_next p (x :: t) = x :: scan_remove_skip_next p t := by
  cases t <;> simp [scan_remove_skip_next, h]

/-- When nothing matches, the skip-next scan removes nothing. -/
theorem scan_remove_skip_next_no_match (p : String → Bool) :
    ∀ (l : List String), (∀ x ∈ l, p x = false) → scan_remove_skip_next p l = l
  | [] => fun _ => rfl
  | [x] => fun h => by
    simp [scan_remove_skip_next, h x (List.mem_singleton_self x)]
  | x :: y :: rest => fun h => by
    have hx : p x = false := h x (by simp)
    have ih := scan_remove_skip_next_no_match p (y :: rest)
      (fun z hz => h z (List.mem_cons_of_mem x hz))
    simp [scan_remove_skip_next, hx, ih]

/-- In a list without duplicates, the element at position i does not occur
among the first i elements. -/
theorem not_mem_take_of_nodup {l : List String} {i : Nat} (h : l.Nodup)
    (hi : i < l.length) : l[i] ∉ l.take i := by
  intro hmem
  obtain ⟨j, hj, hje⟩ := List.mem_iff_getElem.mp hmem
  have hjlen := hj
  rw [List.length_take] at hjlen
  have hji : j < i := lt_of_lt_of_le hjlen (min_le_left _ _)
  rw [List.getElem_take] at hje
  have := (h.getElem_inj_iff).mp hje
  omega

/-- Erasing the element at position i of a duplicate-free list removes
exactly that position. -/
theorem erase_getElem_of_nodup (l : List String) (i : Nat) (h : l.Nodup)
    (hi : i < l.length) : l.erase l[i] = l.take i ++ l.drop (i + 1) := by
  have hx : l = l.take i ++ l[i] :: l.drop (i + 1) := by
    conv_lhs => rw [← List.take_append_drop i l]
    rw [List.drop_eq_getElem_cons hi]
  have hnotin : l[i] ∉ l.take i := not_mem_take_of_nodup h hi
  calc l.erase l[i] = (l.take i ++ l[i] :: l.drop (i + 1)).erase l[i] := by rw [← hx]
    _ = l.take i ++ (l[i] :: l.drop (i + 1)).erase l[i] :=
        List.erase_append_right _ hnotin
    _ = l.take i ++ l.drop (i + 1) := by rw [List.erase_cons_head]

/-- The iterate-and-remove loop of get_local_poprun_hosts, characterized on
duplicate-free lists: it behaves as the left-to-right scan that removes a
matching entry but skips the entry sliding into its place. -/
theorem pyRemoveAux_eq_scan (p : String → Bool) :
    ∀ (fuel : Nat) (lst : List String) (i : Nat), lst.Nodup →
      lst.length ≤ fuel + i →
      pyRemoveAux p fuel lst i = lst.take i ++ scan_remove_skip_next p (lst.drop i) := by
  intro fuel
  induction fuel with
  | zero =>
    intro lst i hnd hlen
    rw [pyRemoveAux]
    have hge : lst.length ≤ i := by omega
    rw [List.take_of_length_le hge, List.drop_eq_nil_of_le hge]
    simp [scan_remove_skip_next]
  | succ fuel ih =>
    intro lst i hnd hlen
    rw [pyRemoveAux]
    cases hgi : lst[i]? with
    | none =>
      have hge : lst.length ≤ i := List.getElem?_eq_none_iff.mp hgi
      rw [List.take_of_length_le hge, List.drop_eq_nil_of_le hge]
      simp [scan_remove_skip_next]
    | some x =>
      have hi : i < lst.length := by
        by_contra hc
        rw [List.getElem?_eq_none (le_of_not_lt hc)] at hgi
        simp at hgi
      have hx : lst[i] = x := by
        rw [List.getElem?_eq_getElem hi] at hgi
        exact Option.some_inj.mp hgi
      have hdrop : lst.drop i = x :: lst.drop (i + 1) := by
        rw [List.drop_eq_getElem_cons hi, hx]
      have htakelen : (lst.take i).length = i := by
        rw [List.length_take]
        exact min_eq_left (le_of_lt hi)
      show (if p x = true then pyRemoveAux p fuel (lst.erase x) (i + 1)
          else pyRemoveAux p fuel lst (i + 1))
        = lst.take i ++ scan_remove_skip_next p (lst.drop i)
      by_cases hp : p x = true
      · rw [if_pos hp]
        have herase : lst.erase x = lst.take i ++ lst.drop (i + 1) := by
          rw [← hx]
          exact erase_getElem_of_nodup lst i hnd hi
        have hnd2 : (lst.erase x).Nodup := hnd.erase x
        have hlen2 : (lst.erase x).length ≤ fuel + (i + 1) := by
          rw [herase, List.length_append, List.length_take, List.length_drop]
          have : i ⊓ lst.length = i := min_eq_left (le_of_lt hi)
          omega
        rw [ih (lst.erase x) (i + 1) hnd2 hlen2, herase]
        rw [List.take_append_eq_append_take, List.drop_append_eq_append_drop]
        rw [htakelen]
        have h1 : (lst.take i).take (i + 1) = lst.take i :=
          List.take_of_length_le (by omega)
        have h2 : (lst.take i).drop (i + 1) = [] :=
          List.drop_eq_nil_of_le (by omega)
        rw [h1, h2]
        simp only [List.nil_append]
        have hsub : i + 1 - i = 1 := by omega
        rw [hsub, hdrop]
        cases hd2 : lst.drop (i + 1) with
        | nil =>
          simp [scan_remove_skip_next, hp]
        | cons y rest2 =>
          rw [scan_remove_skip_next]
          rw [if_pos hp]
          simp [List.append_assoc]
      · rw [if_neg hp]
        have hpf : p x = false := Bool.eq_false_iff.mpr hp
        have hlen2 : lst.length ≤ fuel + (i + 1) := by omega
        rw [ih lst (i + 1) hnd hlen2]
        rw [hdrop, scan_cons_neg p x (lst.drop (i + 1)) hpf]
        rw [List.take_succ, hgi]
        simp [List.append_assoc]

/-- Claim C7 (amended): for a duplicate-free parsed host list,
get_local_poprun_hosts removes matching entries by a single left-to-right
scan that, after removing an entry, skips the entry immediately following
it (so of two adjacent matching entries the second survives); when the
scan removed nothing, the first entry is assumed local and dropped. -/
theorem get_local_poprun_hosts_characterization (hosts possible : List String)
    (h : hosts.Nodup) :
    get_local_poprun_hosts hosts possible =
      (let kept := scan_remove_skip_next (matches_local possible) hosts
       if kept.length = hosts.length then kept.drop 1 else kept)
    ∧ ((∀ x ∈ hosts, matches_local possible x = false) →
        get_local_poprun_hosts hosts possible = hosts.drop 1) := by
  have hscan : pyRemoveAux (matches_local possible) hosts.length hosts 0
      = scan_remove_skip_next (matches_local possible) hosts := by
    have := pyRemoveAux_eq_scan (matches_local possible) hosts.length hosts 0 h
      (by omega)
    simpa using this
  constructor
  · unfold get_local_poprun_hosts
    rw [hscan]
  · intro hno
    unfold get_local_poprun_hosts
    rw [hscan, scan_remove_skip_next_no_match _ hosts hno, if_pos rfl]

/-- Claim C7 witness: with no entry matching a local identifier, the count
is unchanged, so the first entry is assumed local and dropped. -/
theorem get_local_poprun_hosts_witness :
    get_local_poprun_hosts ["h1", "h2"] ["x"] = ["h2"] := by
  have := (get_local_poprun_hosts_characterization ["h1", "h2"] ["x"]
    (by decide)).2 (by decide)
  simpa using this

/-- Claim C7 counterexample: both entries match a local identifier, yet the
loop removes only the first: removing "a" shifts "b" into the examined
slot and the iteration skips it, so "b" is returned even though the claim
says every matching entry is removed (which would leave the empty
list). -/
theorem get_local_poprun_hosts_counterexample :
    get_local_poprun_hosts ["a", "b"] ["ab"] = ["b"]
    ∧ spec_local_poprun_hosts ["a", "b"] ["ab"] = []
    ∧ get_local_poprun_hosts ["a", "b"] ["ab"]
        ≠ spec_local_poprun_hosts ["a", "b"] ["ab"]
    ∧ matches_local ["ab"] "a" = true
    ∧ matches_local ["ab"] "b" = true := by
  decide
